import Mathlib

set_option maxHeartbeats 1000000

namespace Loader

/-- A 2-D tensor, modelled as a time-major list of feature rows.  This is the
shallow embedding of the per-sample numpy and torch arrays of src/loader.py. -/
abbrev Mat (α : Type) : Type := List (List α)

/-- Feature width of a matrix, read off its first row (shape[1] of a
rectangular 2-D tensor). -/
def widthOf {α : Type} : Mat α → ℕ
  | [] => 0
  | r :: _ => r.length

/-- Maximum length over a batch of sequences. -/
def maxLen {β : Type} (ms : List (List β)) : ℕ :=
  (ms.map List.length).foldr max 0

/-- Right-pad a matrix with all-zero rows up to time length L; the zero rows
have the width of the matrix itself.  This is the per-sample effect of
pad_sequence with batch_first=True and padding_value 0. -/
def padTo {α : Type} [Zero α] (L : ℕ) (m : Mat α) : Mat α :=
  m ++ List.replicate (L - m.length) (List.replicate (widthOf m) 0)

/-- Embedding of torch.nn.utils.rnn.pad_sequence (batch_first=True): right-pad
every sample of the batch with zero rows to the maximum time length present in
the batch. -/
def padSeq {α : Type} [Zero α] (ms : List (Mat α)) : List (Mat α) :=
  ms.map (padTo (maxLen ms))

/-- Embedding of loader.py lines 179-182: tmp[i] = tmp[i][:n] followed by
F.pad(tmp[i], (0, 0, 0, n - tmp[i].shape[0])), i.e. truncate to the first n
time steps and then zero-pad on the right to exactly n rows. -/
def padFix {α : Type} [Zero α] (n : ℕ) (m : Mat α) : Mat α :=
  padTo n (m.take n)

/-- Sum of all entries of a matrix: the embedding of ndarray.sum() on a
2-D per-sample text array. -/
def sumMat {α : Type} [AddCommMonoid α] (m : Mat α) : α :=
  (m.map List.sum).sum

/-- Embedding of lines 21-24 of loader.py: the list of indices (counting from
n) of the samples whose text array sums to 0. -/
def dropIdxList {α : Type} [AddCommMonoid α] [DecidableEq α] :
    List (Mat α) → ℕ → List ℕ
  | [], _ => []
  | m :: ms, n =>
      if sumMat m = 0 then n :: dropIdxList ms (n + 1) else dropIdxList ms (n + 1)

/-- Embedding of np.delete(xs, drop, 0): keep the entries whose position
(counting from n) is not listed in drop. -/
def npDelete {β : Type} (drop : List ℕ) : List β → ℕ → List β
  | [], _ => []
  | x :: xs, n =>
      if n ∈ drop then npDelete drop xs (n + 1) else x :: npDelete drop xs (n + 1)

/-- One split of the continuous-family raw data: per-sample arrays for the
four modality keys of the dataset dictionary. -/
structure AffectSplit (α : Type) where
  vision : List (Mat α)
  audio : List (Mat α)
  text : List (Mat α)
  labels : List (Mat α)

/-- Embedding of drop_entry (loader.py lines 19-28): compute the indices of the
samples whose text entry sums to 0, then delete those indices from every
modality of the split. -/
def drop_entry {α : Type} [AddCommMonoid α] [DecidableEq α]
    (d : AffectSplit α) : AffectSplit α :=
  ⟨npDelete (dropIdxList d.text 0) d.vision 0,
   npDelete (dropIdxList d.text 0) d.audio 0,
   npDelete (dropIdxList d.text 0) d.text 0,
   npDelete (dropIdxList d.text 0) d.labels 0⟩

/-- Row-major reshape of a flat list into the given number of rows of the given
number of columns: the embedding of ndarray.reshape(rows, cols). -/
def reshapeRM {α : Type} (rows cols : ℕ) (flat : List α) : Mat α :=
  (List.range rows).map (fun i => (flat.drop (i * cols)).take cols)

/-- Embedding of the label collection step shared by _process_1 (lines 365-370)
and _process_2 (lines 395-400): if the label carries more than one value per
row, reshape it to (shape[1], shape[0]) in row-major order and take row 0;
otherwise append the label as-is (flattened here, since the final
torch.tensor(labels) treats it elementwise). -/
def collectLabel {α : Type} (lab : Mat α) : List α :=
  if 1 < widthOf lab then (reshapeRM (widthOf lab) lab.length lab.flatten).headD []
  else lab.flatten

/-- Embedding of torch.tensor(labels).view(B, 1): succeeds when the collected
per-sample lists are rectangular and hold exactly B scalars in total, and then
yields the column of those scalars. -/
def viewB1 {α : Type} (B : ℕ) (xss : List (List α)) : Option (List α) :=
  if (∀ r ∈ xss, r.length = (xss.headD []).length) ∧ xss.flatten.length = B then
    some xss.flatten
  else none

/-- One input tuple of _process_1: three unpadded modality matrices, the sample
index and the label, as produced by the unpadded path of the dataset. -/
structure Sample1 (α : Type) where
  v : Mat α
  a : Mat α
  t : Mat α
  ind : ℕ
  label : Mat α

/-- Output of _process_1. -/
structure Batch1 (α : Type) where
  input : List (List (Mat α))
  lengths : List (List ℕ)
  inds : List ℕ
  labels : Option (List α)

/-- Embedding of _process_1 (loader.py lines 346-377).  The loop over
range(len(inputs[0]) - 2) visits the three modalities in order; per modality it
records each per-sample time length and pad_sequence of the batch.  Indices are
collected as scalars; labels go through collectLabel and the final view(B,1). -/
def process_1 {α : Type} [Zero α] (inputs : List (Sample1 α)) : Batch1 α :=
  ⟨[padSeq (inputs.map Sample1.v), padSeq (inputs.map Sample1.a),
      padSeq (inputs.map Sample1.t)],
   [(inputs.map Sample1.v).map List.length, (inputs.map Sample1.a).map List.length,
      (inputs.map Sample1.t).map List.length],
   inputs.map Sample1.ind,
   viewB1 inputs.length (inputs.map (fun s => collectLabel s.label))⟩

/-- One input tuple of _process_2: three pre-padded modality matrices plus the
label (the pre-padded path does not carry the sample index). -/
structure Sample2 (α : Type) where
  v : Mat α
  a : Mat α
  t : Mat α
  label : Mat α

/-- Embedding of torch.stack on a list of 2-D tensors: defined exactly when all
shapes coincide (row-length profiles equal), in which case the batch is the
list itself. -/
def stackT {α : Type} (ms : List (Mat α)) : Option (List (Mat α)) :=
  if ∀ m ∈ ms, m.map List.length = (ms.headD []).map List.length then some ms
  else none

/-- Output of _process_2.  The source also computes per-sample length tensors
but discards them (only processed_input[0..2] and the labels are returned). -/
structure Batch2 (α : Type) where
  vision : Option (List (Mat α))
  audio : Option (List (Mat α))
  text : Option (List (Mat α))
  labels : Option (List α)

/-- Embedding of _process_2 (loader.py lines 380-407): stack each of the three
modalities; labels are handled exactly as in _process_1. -/
def process_2 {α : Type} [Zero α] (inputs : List (Sample2 α)) : Batch2 α :=
  ⟨stackT (inputs.map Sample2.v), stackT (inputs.map Sample2.a),
   stackT (inputs.map Sample2.t),
   viewB1 inputs.length (inputs.map (fun s => collectLabel s.label))⟩

/-- One record of the discrete-family (meld) dataset. -/
structure MeldSample where
  token_ids : List ℤ
  video : Mat ℚ
  audio : Mat ℚ
  label : ℤ

/-- Output of the meld collate_fn.  aux1 and aux2 are the two reserved None
slots of the returned 8-tuple. -/
structure MeldBatch where
  text : List (List ℤ)
  visual : List (Mat ℚ)
  acoustic : List (Mat ℚ)
  labels : List ℤ
  lengths : List ℕ
  aux1 : Option ℕ
  aux2 : Option ℕ
  mask : List (List Bool)

/-- pad_sequence (batch_first=True) for 1-D token-id sequences. -/
def padSeq1 (vs : List (List ℤ)) : List (List ℤ) :=
  vs.map (fun v => v ++ List.replicate (maxLen vs - v.length) 0)

/-- Embedding of the meld collate_fn (loader.py lines 287-334): sort the batch
by ascending token-sequence length (Python sorted is stable; insertionSort with
a non-strict key order is stable as well), pad tokens and per-frame features to
the batch maxima, prepend one zero timestep to every modality
(F.pad(text,(1,0,0,0)) and F.pad(features,(0,0,1,0,0,0))), add one to every
length, and build the validity mask over the padded time axis:
mask[b][t] = t < lengths[b]. -/
def collate_fn (batch : List MeldSample) : MeldBatch :=
  let sorted := List.insertionSort
    (fun x y => x.token_ids.length ≤ y.token_ids.length) batch
  let labels := sorted.map MeldSample.label
  let text0 := padSeq1 (sorted.map MeldSample.token_ids)
  let visual0 := padSeq (sorted.map MeldSample.video)
  let acoustic0 := padSeq (sorted.map MeldSample.audio)
  let lengths0 := sorted.map (fun s => s.token_ids.length)
  let text := text0.map (fun row => 0 :: row)
  let visual := visual0.map (fun m => List.replicate (widthOf m) 0 :: m)
  let acoustic := acoustic0.map (fun m => List.replicate (widthOf m) 0 :: m)
  let lengths := lengths0.map (· + 1)
  let sentLen := (text.headD []).length
  let mask := lengths.map (fun len => (List.range sentLen).map (fun t => decide (t < len)))
  ⟨text, visual, acoustic, labels, lengths, none, none, mask⟩

/-- Python-level failure outcomes of SentimentDataset.__getitem__: exitCall is
the process-terminating print-and-exit branch of lines 130-132; indexError is a
recoverable IndexError raised by an out-of-range or empty-tensor access. -/
inductive PyErr where
  | exitCall : PyErr
  | indexError : PyErr
deriving DecidableEq

/-- The three return shapes of SentimentDataset.__getitem__: the flattened
path (line 168), the max_pad path (line 185, no sample index) and the raw
unpadded path (line 184). -/
inductive Item (α : Type) where
  | flat (v a t : List α) (ind : ℕ) (label : Mat α) : Item α
  | padded (v a t : Mat α) (label : Mat α) : Item α
  | raw (v a t : Mat α) (ind : ℕ) (label : Mat α) : Item α
deriving DecidableEq

/-- The task string that switches __getitem__ to binary class labels. -/
def classificationTask : Option String := some ("classification")

/-- Configuration flags of SentimentDataset (loader.py lines 88-118). -/
structure SentimentConfig where
  flatten : Bool
  aligned : Bool
  task : Option String
  max_pad : Bool
  max_pad_num : ℕ
  z_norm : Bool

/-- The dataset dictionary stored by SentimentDataset after construction. -/
structure SentimentData (α : Type) where
  vision : List (Mat α)
  audio : List (Mat α)
  text : List (Mat α)
  labels : List (Mat α)

/-- A raw audio cell before construction: either a finite value or the
negative-infinity sentinel left by the upstream feature extractor. -/
inductive AudioVal (α : Type) where
  | val (x : α) : AudioVal α
  | negInf : AudioVal α
deriving DecidableEq

/-- Embedding of line 119 of loader.py on one cell: an audio value equal to
negative infinity is replaced with 0.0, any other value is kept. -/
def cleanVal {α : Type} [Zero α] : AudioVal α → α
  | .val x => x
  | .negInf => 0

/-- The raw data dictionary handed to the SentimentDataset constructor, with
audio cells still possibly holding the negative-infinity sentinel. -/
structure RawSenti (α : Type) where
  vision : List (Mat α)
  audio : List (List (List (AudioVal α)))
  text : List (Mat α)
  labels : List (Mat α)

/-- Embedding of SentimentDataset.__init__ (lines 111-119): store the data
dictionary, replacing every audio value equal to negative infinity with 0. -/
def mkSentimentDataset {α : Type} [Zero α] (raw : RawSenti α) : SentimentData α :=
  ⟨raw.vision, raw.audio.map (fun m => m.map (fun r => r.map cleanVal)),
   raw.text, raw.labels⟩

/-- Indexing a per-sample list, raising IndexError out of range, as numpy
indexing does at lines 123-125 and 159. -/
def fetch {β : Type} (xs : List β) (i : ℕ) : Except PyErr β :=
  if h : i < xs.length then .ok (xs.get ⟨i, h⟩) else .error .indexError

/-- Time index of the first row containing a non-zero entry: the embedding of
tensor.nonzero()[0][0] on a 2-D tensor (row-major scan, so the first non-zero
element lies in the first row that is not all zero). -/
def firstNonzeroRow {α : Type} [Zero α] [DecidableEq α] : Mat α → Option ℕ
  | [] => none
  | r :: rs =>
      if ∀ x ∈ r, x = 0 then (firstNonzeroRow rs).map (· + 1) else some 0

/-- Embedding of the alignment step, lines 127-139 of loader.py.  Aligned: the
offset is the first non-zero time index of the text row, applied to all three
modalities; an all-zero text row hits the except branch that prints and calls
exit().  Not aligned: each modality is truncated from its own first non-zero
time index; an all-zero modality there raises an uncaught IndexError. -/
def truncStep {α : Type} [Zero α] [DecidableEq α] (aligned : Bool)
    (v a t : Mat α) : Except PyErr (Mat α × Mat α × Mat α) :=
  if aligned then
    match firstNonzeroRow t with
    | some s => .ok (v.drop s, a.drop s, t.drop s)
    | none => .error .exitCall
  else
    match firstNonzeroRow v, firstNonzeroRow a, firstNonzeroRow t with
    | some sv, some sa, some st' => .ok (v.drop sv, a.drop sa, t.drop st')
    | _, _, _ => .error .indexError

/-- Mean of a list of scalars (tensor.mean(0) on one feature column). -/
def colMean {α : Type} [DivisionRing α] (xs : List α) : α :=
  xs.sum / (xs.length : α)

/-- Unbiased sample variance of a feature column: torch.std squares to this
(sum of squared deviations over n - 1, Bessel correction, torch default). -/
def colVarU {α : Type} [Field α] (xs : List α) : α :=
  ((xs.map (fun x => (x - colMean xs) ^ 2)).sum) / ((xs.length : α) - 1)

/-- Standard deviation of a column given a square-root function: torch.std is
stdWith Real.sqrt under the idealization of floats as reals. -/
def stdWith {α : Type} [Field α] (sqrtFn : α → α) (xs : List α) : α :=
  sqrtFn (colVarU xs)

/-- Feature column j of a matrix. -/
def column {α : Type} [Zero α] (m : Mat α) (j : ℕ) : List α :=
  m.map (fun r => r.getD j 0)

/-- Per-feature z-normalization of one column given a square-root function. -/
def znormCol {α : Type} [Field α] (sqrtFn : α → α) (xs : List α) : List α :=
  xs.map (fun x => (x - colMean xs) / stdWith sqrtFn xs)

/-- Embedding of the z-normalization of lines 143-154:
(m - m.mean(0, keepdims)) / torch.std(m, axis=0, keepdims), broadcast over
rows, followed by nan_to_num.  In exact arithmetic the only non-finite case is
a zero-variance column, where the numerator is 0 as well; Lean division by 0
returns 0 there, matching nan_to_num mapping the resulting NaN to 0. -/
def znormMat {α : Type} [Field α] (sqrtFn : α → α) (m : Mat α) : Mat α :=
  m.map (fun r => (List.range r.length).map
    (fun j => (r.getD j 0 - colMean (column m j)) / stdWith sqrtFn (column m j)))

/-- Embedding of the classification label of lines 156-157:
[[1]] if the (scalar) label is positive else [[0]]. -/
def getClass {α : Type} [LinearOrderedField α] (tmpLabel : Mat α) : Mat α :=
  if 0 < tmpLabel.flatten.headD 0 then [[1]] else [[0]]

/-- The pure tail of __getitem__ (lines 141-185), after the alignment
truncation succeeded: optionally z-normalize the three truncated modalities,
build the label, then return one of the three item shapes according to the
flatten and max_pad flags.  The max_pad loop of the source runs over
range(len(tmp) - 1) with tmp = [vision, audio, text, label], so it truncates
and pads vision, audio and text but leaves the label untouched. -/
def mkItem {α : Type} [LinearOrderedField α] (sqrtFn : α → α)
    (cfg : SentimentConfig) (vision1 audio1 text1 : Mat α) (ind : ℕ)
    (tmpLabel : Mat α) : Item α :=
  let vat :=
    if cfg.z_norm then
      (znormMat sqrtFn vision1, znormMat sqrtFn audio1, znormMat sqrtFn text1)
    else (vision1, audio1, text1)
  let label :=
    if cfg.task = classificationTask then getClass tmpLabel else tmpLabel
  if cfg.flatten then
    .flat vat.1.flatten vat.2.1.flatten vat.2.2.flatten ind label
  else if cfg.max_pad then
    .padded (padFix cfg.max_pad_num vat.1) (padFix cfg.max_pad_num vat.2.1)
      (padFix cfg.max_pad_num vat.2.2) label
  else
    .raw vat.1 vat.2.1 vat.2.2 ind label

/-- Embedding of SentimentDataset.__getitem__ (loader.py lines 121-185) as a
fallible function, in source statement order: fetch the three modality rows,
truncate them at the alignment offset, fetch the label row, then run the pure
tail mkItem. -/
def getitem {α : Type} [LinearOrderedField α] (sqrtFn : α → α)
    (cfg : SentimentConfig) (st : SentimentData α) (ind : ℕ) :
    Except PyErr (Item α) :=
  (fetch st.vision ind).bind fun vision0 =>
  (fetch st.audio ind).bind fun audio0 =>
  (fetch st.text ind).bind fun text0 =>
  (truncStep cfg.aligned vision0 audio0 text0).bind fun vat =>
  (fetch st.labels ind).bind fun tmpLabel =>
  .ok (mkItem sqrtFn cfg vat.1 vat.2.1 vat.2.2 ind tmpLabel)

/-- State-passing form of __getitem__: the stored dataset dictionary is
threaded through the call.  Every statement of the source body only reads the
store (torch.tensor copies its numpy argument; all later rebindings are local),
so the translation returns the store it received. -/
def getitemState {α : Type} [LinearOrderedField α] (sqrtFn : α → α)
    (cfg : SentimentConfig) (st : SentimentData α) (ind : ℕ) :
    Except PyErr (Item α) × SentimentData α :=
  (getitem sqrtFn cfg st ind, st)

/-- Concrete three-sample meld batch with token-sequence lengths [2, 5, 3],
the input of the discrete-family collator claim. -/
def c3batch : List MeldSample :=
  [⟨[10, 11], [[1]], [[1]], 0⟩,
   ⟨[1, 2, 3, 4, 5], [[2]], [[2]], 1⟩,
   ⟨[7, 8, 9], [[3]], [[3]], 2⟩]

/-- Matrix transpose, written from the wording of the label-shape claim (the
collected label is said to be the first row of the label's transpose); it is
compared against the reshape-based selection the source actually performs. -/
def transposeM {α : Type} [Zero α] (m : Mat α) : Mat α :=
  (List.range (widthOf m)).map (fun j => m.map (fun r => r.getD j 0))

section DropEntry

variable {α β : Type} [AddCommMonoid α] [DecidableEq α]

theorem mem_dropIdxList_le (ms : List (Mat α)) (n i : ℕ)
    (h : i ∈ dropIdxList ms n) : n ≤ i := by
  induction ms generalizing n with
  | nil => simp [dropIdxList] at h
  | cons m ms ih =>
    by_cases hm : sumMat m = 0
    · rw [dropIdxList, if_pos hm] at h
      rcases List.mem_cons.mp h with rfl | h
      · exact le_refl i
      · exact le_trans (Nat.le_succ n) (ih (n + 1) h)
    · rw [dropIdxList, if_neg hm] at h
      exact le_trans (Nat.le_succ n) (ih (n + 1) h)

theorem npDelete_cons_gt (drop : List ℕ) (n₀ : ℕ) (xs : List β) (n : ℕ)
    (h : n₀ < n) : npDelete (n₀ :: drop) xs n = npDelete drop xs n := by
  induction xs generalizing n with
  | nil => rfl
  | cons x xs ih =>
    by_cases hd : n ∈ drop
    · rw [npDelete, if_pos (List.mem_cons.mpr (Or.inr hd)), npDelete, if_pos hd,
        ih (n + 1) (by omega)]
    · rw [npDelete, if_neg ?_, npDelete, if_neg hd, ih (n + 1) (by omega)]
      intro hc
      rcases List.mem_cons.mp hc with h1 | h1
      · omega
      · exact hd h1

theorem npDelete_dropIdxList (ms : List (Mat α)) (ys : List β) (n : ℕ)
    (h : ms.length = ys.length) :
    npDelete (dropIdxList ms n) ys n
      = ((ms.zip ys).filter (fun p => decide (sumMat p.1 ≠ 0))).map Prod.snd := by
  induction ms generalizing ys n with
  | nil =>
    cases ys with
    | nil => rfl
    | cons y ys => simp at h
  | cons m ms ih =>
    cases ys with
    | nil => simp at h
    | cons y ys =>
      have hlen : ms.length = ys.length := by simpa using h
      by_cases hm : sumMat m = 0
      · rw [dropIdxList, if_pos hm, npDelete, if_pos (List.mem_cons_self _ _),
          npDelete_cons_gt _ _ _ _ (Nat.lt_succ_self n), ih ys (n + 1) hlen]
        simp [hm]
      · rw [dropIdxList, if_neg hm, npDelete, if_neg ?_, ih ys (n + 1) hlen]
        · simp [hm]
        · intro hc
          exact absurd (mem_dropIdxList_le ms (n + 1) n hc) (by omega)

theorem filter_zip_self (ms : List (Mat α)) :
    ((ms.zip ms).filter (fun p => decide (sumMat p.1 ≠ 0))).map Prod.snd
      = ms.filter (fun m => decide (sumMat m ≠ 0)) := by
  induction ms with
  | nil => rfl
  | cons m ms ih =>
    simp only [List.zip_cons_cons, List.filter_cons]
    by_cases hm : sumMat m = 0
    · rw [if_neg (by simp [hm]), if_neg (by simp [hm]), ih]
    · rw [if_pos (by simp [hm]), if_pos (by simp [hm]), List.map_cons, ih]

theorem filter_zip_length (ms : List (Mat α)) (ys : List β)
    (h : ms.length = ys.length) :
    (((ms.zip ys).filter (fun p => decide (sumMat p.1 ≠ 0))).map Prod.snd).length
      = (ms.filter (fun m => decide (sumMat m ≠ 0))).length := by
  induction ms generalizing ys with
  | nil =>
    cases ys with
    | nil => rfl
    | cons y ys => simp at h
  | cons m ms ih =>
    cases ys with
    | nil => simp at h
    | cons y ys =>
      have hlen : ms.length = ys.length := by simpa using h
      simp only [List.zip_cons_cons, List.filter_cons]
      by_cases hm : sumMat m = 0
      · rw [if_neg (by simp [hm]), if_neg (by simp [hm])]
        exact ih ys hlen
      · rw [if_pos (by simp [hm]), if_pos (by simp [hm]), List.map_cons,
          List.length_cons, List.length_cons, ih ys hlen]

theorem countP_ne_add_countP_eq (ms : List (Mat α)) :
    ms.countP (fun m => decide (sumMat m ≠ 0))
      + ms.countP (fun m => decide (sumMat m = 0)) = ms.length := by
  induction ms with
  | nil => rfl
  | cons m ms ih =>
    simp only [List.countP_cons, List.length_cons]
    by_cases hm : sumMat m = 0
    · rw [if_neg (by simp [hm]), if_pos (by simp [hm])]
      omega
    · rw [if_pos (by simp [hm]), if_neg (by simp [hm])]
      omega

theorem filter_length_sub (ms : List (Mat α)) :
    (ms.filter (fun m => decide (sumMat m ≠ 0))).length
      = ms.length - ms.countP (fun m => decide (sumMat m = 0)) := by
  rw [← List.countP_eq_length_filter]
  have := countP_ne_add_countP_eq ms
  omega

theorem dropEntry_text_filter (d : AffectSplit α) :
    (drop_entry d).text = d.text.filter (fun m => decide (sumMat m ≠ 0)) := by
  show npDelete (dropIdxList d.text 0) d.text 0 = _
  rw [npDelete_dropIdxList d.text d.text 0 rfl, filter_zip_self]

end DropEntry

/-- Claim C10: drop_entry removes exactly the sample indices whose text array
sums to 0 (so a row whose non-zero entries cancel, such as one holding 1 and
-1, is dropped even though it is not all-zero, and any row with a non-zero sum
is kept). -/
theorem c10_drop_entry_drops_sum_zero :
    (∀ (α : Type) [AddCommMonoid α] [DecidableEq α] (d : AffectSplit α),
        (drop_entry d).text = d.text.filter (fun m => decide (sumMat m ≠ 0)))
    ∧ (drop_entry (⟨[], [], [[[1, -1]]], []⟩ : AffectSplit ℤ)).text = []
    ∧ ¬ (∀ r ∈ ([[(1 : ℤ), -1]] : Mat ℤ), ∀ x ∈ r, x = 0)
    ∧ (drop_entry (⟨[], [], [[[1, 2]]], []⟩ : AffectSplit ℤ)).text
        = [[[1, 2]]] := by
  refine ⟨fun α i1 i2 d => dropEntry_text_filter d, ?_, ?_, ?_⟩ <;> decide

/-- Claim C6: after drop_entry no remaining sample has a text row summing to
0; the sample count drops by exactly the number of such entries; and every
other modality (vision, audio, labels) is filtered to the same reduced index
set as text, so all modalities keep a common sample count. -/
theorem c6_drop_entry_filters_all_modalities {α : Type} [AddCommMonoid α]
    [DecidableEq α] (d : AffectSplit α)
    (hv : d.vision.length = d.text.length)
    (ha : d.audio.length = d.text.length)
    (hl : d.labels.length = d.text.length) :
    (∀ m ∈ (drop_entry d).text, ¬ sumMat m = 0)
    ∧ (drop_entry d).text.length
        = d.text.length - d.text.countP (fun m => decide (sumMat m = 0))
    ∧ (drop_entry d).vision
        = ((d.text.zip d.vision).filter
            (fun p => decide (sumMat p.1 ≠ 0))).map Prod.snd
    ∧ (drop_entry d).audio
        = ((d.text.zip d.audio).filter
            (fun p => decide (sumMat p.1 ≠ 0))).map Prod.snd
    ∧ (drop_entry d).labels
        = ((d.text.zip d.labels).filter
            (fun p => decide (sumMat p.1 ≠ 0))).map Prod.snd
    ∧ (drop_entry d).vision.length = (drop_entry d).text.length
    ∧ (drop_entry d).audio.length = (drop_entry d).text.length
    ∧ (drop_entry d).labels.length = (drop_entry d).text.length := by
  have htext := dropEntry_text_filter d
  have hvz : (drop_entry d).vision
      = ((d.text.zip d.vision).filter
          (fun p => decide (sumMat p.1 ≠ 0))).map Prod.snd :=
    npDelete_dropIdxList d.text d.vision 0 hv.symm
  have haz : (drop_entry d).audio
      = ((d.text.zip d.audio).filter
          (fun p => decide (sumMat p.1 ≠ 0))).map Prod.snd :=
    npDelete_dropIdxList d.text d.audio 0 ha.symm
  have hlz : (drop_entry d).labels
      = ((d.text.zip d.labels).filter
          (fun p => decide (sumMat p.1 ≠ 0))).map Prod.snd :=
    npDelete_dropIdxList d.text d.labels 0 hl.symm
  refine ⟨?_, ?_, hvz, haz, hlz, ?_, ?_, ?_⟩
  · intro m hm
    rw [htext] at hm
    have := List.of_mem_filter hm
    simpa using this
  · rw [htext, filter_length_sub]
  · rw [hvz, htext, filter_zip_length d.text d.vision hv.symm]
  · rw [haz, htext, filter_zip_length d.text d.audio ha.symm]
  · rw [hlz, htext, filter_zip_length d.text d.labels hl.symm]

/-- Witness for C6 at a concrete two-sample split whose first text entry sums
to zero. -/
theorem c6_drop_entry_filters_all_modalities_witness :
    (let d : AffectSplit ℤ :=
      ⟨[[[1]], [[2]]], [[[3]], [[4]]], [[[0]], [[5]]], [[[9]], [[8]]]⟩
     d.vision.length = d.text.length ∧ d.audio.length = d.text.length
     ∧ d.labels.length = d.text.length
     ∧ ((∀ m ∈ (drop_entry d).text, ¬ sumMat m = 0)
        ∧ (drop_entry d).text.length
            = d.text.length - d.text.countP (fun m => decide (sumMat m = 0))
        ∧ (drop_entry d).vision
            = ((d.text.zip d.vision).filter
                (fun p => decide (sumMat p.1 ≠ 0))).map Prod.snd
        ∧ (drop_entry d).audio
            = ((d.text.zip d.audio).filter
                (fun p => decide (sumMat p.1 ≠ 0))).map Prod.snd
        ∧ (drop_entry d).labels
            = ((d.text.zip d.labels).filter
                (fun p => decide (sumMat p.1 ≠ 0))).map Prod.snd
        ∧ (drop_entry d).vision.length = (drop_entry d).text.length
        ∧ (drop_entry d).audio.length = (drop_entry d).text.length
        ∧ (drop_entry d).labels.length = (drop_entry d).text.length)) :=
  ⟨rfl, rfl, rfl, c6_drop_entry_filters_all_modalities _ rfl rfl rfl⟩

section Padding

variable {α : Type} [Zero α]

theorem maxLen_cons {β : Type} (x : List β) (ms : List (List β)) :
    maxLen (x :: ms) = max x.length (maxLen ms) := rfl

theorem le_maxLen {β : Type} (ms : List (List β)) (m : List β) (h : m ∈ ms) :
    m.length ≤ maxLen ms := by
  induction ms with
  | nil => cases h
  | cons x ms ih =>
    rcases List.mem_cons.mp h with rfl | h
    · rw [maxLen_cons]; exact le_max_left _ _
    · rw [maxLen_cons]; exact le_trans (ih h) (le_max_right _ _)

theorem padTo_length (L : ℕ) (m : Mat α) (h : m.length ≤ L) :
    (padTo L m).length = L := by
  simp only [padTo, List.length_append, List.length_replicate]
  omega

theorem padTo_getD_beyond (L : ℕ) (m : Mat α) (t : ℕ) (h1 : m.length ≤ t)
    (h2 : t < L) : (padTo L m).getD t [] = List.replicate (widthOf m) 0 := by
  unfold padTo
  rw [List.getD_append_right _ _ _ _ h1,
    List.getD_eq_getElem _ _ (by simp only [List.length_replicate]; omega)]
  simp

theorem getD_map_lt {β γ : Type} (f : β → γ) (l : List β) (k : ℕ) (d : γ)
    (d' : β) (h : k < l.length) : (l.map f).getD k d = f (l.getD k d') := by
  rw [List.getD_eq_getElem _ _ (by simpa using h), List.getD_eq_getElem _ _ h,
    List.getElem_map]

end Padding

/-- Claim C1: for a non-empty batch of unpadded samples, _process_1 returns,
per modality, the pad_sequence batch in which every sample has time length
equal to the maximum per-sample length of that modality, every row beyond a
sample's true length is all-zero, and the per-modality length tensors hold the
original per-sample time lengths. -/
theorem c1_process_1_pads_to_batch_max {α : Type} [Zero α]
    (inputs : List (Sample1 α)) (_hne : inputs ≠ []) :
    (process_1 inputs).input
      = [padSeq (inputs.map Sample1.v), padSeq (inputs.map Sample1.a),
          padSeq (inputs.map Sample1.t)]
    ∧ (process_1 inputs).lengths
      = [(inputs.map Sample1.v).map List.length,
          (inputs.map Sample1.a).map List.length,
          (inputs.map Sample1.t).map List.length]
    ∧ ∀ ms ∈ [inputs.map Sample1.v, inputs.map Sample1.a, inputs.map Sample1.t],
        ∀ k < ms.length,
          ((padSeq ms).getD k []).length = maxLen ms
          ∧ ∀ t < maxLen ms, (ms.getD k []).length ≤ t →
              ∀ x ∈ ((padSeq ms).getD k []).getD t [], x = 0 := by
  refine ⟨rfl, rfl, ?_⟩
  intro ms _ k hk
  have hmem : ms.getD k [] ∈ ms := by
    rw [List.getD_eq_getElem _ _ hk]
    exact List.getElem_mem hk
  have hle : (ms.getD k []).length ≤ maxLen ms := le_maxLen ms _ hmem
  have hpad : (padSeq ms).getD k [] = padTo (maxLen ms) (ms.getD k []) :=
    getD_map_lt _ ms k [] [] hk
  constructor
  · rw [hpad]
    exact padTo_length _ _ hle
  · intro t ht hlen x hx
    rw [hpad, padTo_getD_beyond _ _ t hlen ht] at hx
    exact List.eq_of_mem_replicate hx

/-- Witness for C1 at a concrete two-sample batch with ragged lengths. -/
theorem c1_process_1_pads_to_batch_max_witness :
    (let inputs : List (Sample1 ℤ) :=
      [⟨[[1]], [[2]], [[3, 4]], 0, [[7]]⟩,
       ⟨[[1], [0]], [[2], [2], [2]], [[3, 0]], 1, [[8]]⟩]
     inputs ≠ []
     ∧ ((process_1 inputs).input
          = [padSeq (inputs.map Sample1.v), padSeq (inputs.map Sample1.a),
              padSeq (inputs.map Sample1.t)]
        ∧ (process_1 inputs).lengths
          = [(inputs.map Sample1.v).map List.length,
              (inputs.map Sample1.a).map List.length,
              (inputs.map Sample1.t).map List.length]
        ∧ ∀ ms ∈ [inputs.map Sample1.v, inputs.map Sample1.a,
              inputs.map Sample1.t],
            ∀ k < ms.length,
              ((padSeq ms).getD k []).length = maxLen ms
              ∧ ∀ t < maxLen ms, (ms.getD k []).length ≤ t →
                  ∀ x ∈ ((padSeq ms).getD k []).getD t [], x = 0)) :=
  ⟨List.cons_ne_nil _ _,
   c1_process_1_pads_to_batch_max _ (List.cons_ne_nil _ _)⟩

theorem firstNonzeroRow_spec {α : Type} [Zero α] [DecidableEq α] (t : Mat α)
    (s : ℕ) (h : firstNonzeroRow t = some s) :
    s < t.length ∧ (∀ i < s, ∀ x ∈ t.getD i [], x = 0)
    ∧ ∃ x ∈ t.getD s [], x ≠ 0 := by
  induction t generalizing s with
  | nil => simp [firstNonzeroRow] at h
  | cons r rs ih =>
    by_cases hr : ∀ x ∈ r, x = 0
    · rw [firstNonzeroRow, if_pos hr] at h
      rcases Option.map_eq_some'.mp h with ⟨s', hs', rfl⟩
      obtain ⟨h1, h2, h3⟩ := ih s' hs'
      refine ⟨by simpa using Nat.succ_lt_succ h1, ?_, ?_⟩
      · intro i hi x hx
        cases i with
        | zero => exact hr x (by simpa using hx)
        | succ i => exact h2 i (by omega) x (by simpa using hx)
      · simpa using h3
    · rw [firstNonzeroRow, if_neg hr] at h
      cases h
      refine ⟨Nat.succ_pos _, ?_, ?_⟩
      · intro i hi
        exact absurd hi (Nat.not_lt_zero i)
      · push_neg at hr
        obtain ⟨x, hx, hxe⟩ := hr
        exact ⟨x, by simpa using hx, hxe⟩

/-- Claim C4: for a sample whose text row has a non-zero entry, the aligned
path truncates all three modalities from the first non-zero time index of the
text row (an index before which every text row is all-zero and at which some
entry is non-zero); the non-aligned path truncates each modality independently
from its own first non-zero time index. -/
theorem c4_truncation_start_offsets {α : Type} [Zero α] [DecidableEq α]
    (v a t : Mat α) :
    (∀ s, firstNonzeroRow t = some s →
        truncStep true v a t = .ok (v.drop s, a.drop s, t.drop s)
        ∧ (∀ i < s, ∀ x ∈ t.getD i [], x = 0)
        ∧ ∃ x ∈ t.getD s [], x ≠ 0)
    ∧ (∀ sv sa st', firstNonzeroRow v = some sv → firstNonzeroRow a = some sa →
        firstNonzeroRow t = some st' →
        truncStep false v a t = .ok (v.drop sv, a.drop sa, t.drop st')) := by
  constructor
  · intro s hs
    refine ⟨?_, (firstNonzeroRow_spec t s hs).2.1, (firstNonzeroRow_spec t s hs).2.2⟩
    simp [truncStep, hs]
  · intro sv sa st' hv ha ht
    simp [truncStep, hv, ha, ht]

/-- Witness for C4 at concrete modalities with distinct non-zero offsets. -/
theorem c4_truncation_start_offsets_witness :
    firstNonzeroRow ([[0, 0], [3, 0]] : Mat ℤ) = some 1
    ∧ firstNonzeroRow ([[0], [5]] : Mat ℤ) = some 1
    ∧ firstNonzeroRow ([[2]] : Mat ℤ) = some 0
    ∧ truncStep true ([[0], [5]] : Mat ℤ) [[2]] [[0, 0], [3, 0]]
        = .ok ([[5]], [], [[3, 0]])
    ∧ truncStep false ([[0], [5]] : Mat ℤ) [[2]] [[0, 0], [3, 0]]
        = .ok ([[5]], [[2]], [[3, 0]]) := by
  refine ⟨by decide, by decide, by decide, ?_, ?_⟩
  · exact ((c4_truncation_start_offsets _ _ _).1 1 (by decide)).1
  · exact (c4_truncation_start_offsets _ _ _).2 1 0 1 (by decide) (by decide)
      (by decide)

theorem firstNonzeroRow_eq_none {α : Type} [Zero α] [DecidableEq α]
    (t : Mat α) (h : ∀ r ∈ t, ∀ x ∈ r, x = 0) : firstNonzeroRow t = none := by
  induction t with
  | nil => rfl
  | cons r rs ih =>
    rw [firstNonzeroRow, if_pos (h r (List.mem_cons_self _ _)),
      ih (fun r hr => h r (List.mem_cons.mpr (Or.inr hr)))]
    rfl

/-- Claim C5: when aligned is set and the text row of the requested sample is
entirely zero, __getitem__ hits the except branch that prints and calls
exit(): the embedding returns the process-terminating exitCall outcome (not a
value and not the recoverable indexError), leaving the store untouched. -/
theorem c5_all_zero_text_aligned_is_fatal {α : Type} [LinearOrderedField α]
    (sqrtFn : α → α) (cfg : SentimentConfig) (st : SentimentData α) (ind : ℕ)
    (hal : cfg.aligned = true)
    (hv : ind < st.vision.length) (ha : ind < st.audio.length)
    (ht : ind < st.text.length)
    (hz : ∀ r ∈ st.text.get ⟨ind, ht⟩, ∀ x ∈ r, x = 0) :
    getitemState sqrtFn cfg st ind = (.error .exitCall, st) := by
  have hvis : fetch st.vision ind = .ok st.vision[ind] := dif_pos hv
  have haud : fetch st.audio ind = .ok st.audio[ind] := dif_pos ha
  have htext : fetch st.text ind = .ok st.text[ind] := dif_pos ht
  have hnone : firstNonzeroRow st.text[ind] = none :=
    firstNonzeroRow_eq_none _ hz
  have htr : truncStep cfg.aligned st.vision[ind] st.audio[ind] st.text[ind]
      = .error .exitCall := by
    rw [hal]
    simp [truncStep, hnone]
  have hmain : getitem sqrtFn cfg st ind = .error .exitCall := by
    unfold getitem
    rw [hvis]
    simp only [Except.bind]
    rw [haud]
    simp only [Except.bind]
    rw [htext]
    simp only [Except.bind]
    rw [htr]
  show (getitem sqrtFn cfg st ind, st) = (.error PyErr.exitCall, st)
  rw [hmain]

/-- Witness for C5 at a concrete one-sample store with an all-zero text row. -/
theorem c5_all_zero_text_aligned_is_fatal_witness :
    (⟨false, true, none, false, 50, false⟩ : SentimentConfig).aligned = true
    ∧ (0 : ℕ)
        < (⟨[[[1]]], [[[2]]], [[[0, 0]]], [[[3]]]⟩ : SentimentData ℚ).vision.length
    ∧ (0 : ℕ)
        < (⟨[[[1]]], [[[2]]], [[[0, 0]]], [[[3]]]⟩ : SentimentData ℚ).audio.length
    ∧ (0 : ℕ)
        < (⟨[[[1]]], [[[2]]], [[[0, 0]]], [[[3]]]⟩ : SentimentData ℚ).text.length
    ∧ (∀ r ∈ (⟨[[[1]]], [[[2]]], [[[0, 0]]], [[[3]]]⟩ : SentimentData ℚ).text.get
          ⟨0, by decide⟩, ∀ x ∈ r, x = 0)
    ∧ getitemState (fun x : ℚ => x) ⟨false, true, none, false, 50, false⟩
        ⟨[[[1]]], [[[2]]], [[[0, 0]]], [[[3]]]⟩ 0
        = (.error .exitCall, ⟨[[[1]]], [[[2]]], [[[0, 0]]], [[[3]]]⟩) :=
  ⟨rfl, by decide, by decide, by decide, by decide,
   c5_all_zero_text_aligned_is_fatal (fun x : ℚ => x)
     ⟨false, true, none, false, 50, false⟩
     ⟨[[[1]]], [[[2]]], [[[0, 0]]], [[[3]]]⟩ 0 rfl (by decide) (by decide)
     (by decide) (by decide)⟩

theorem getD_map_def {β γ : Type} (f : β → γ) (xs : List β) (i : ℕ) (d : β) :
    (xs.map f).getD i (f d) = f (xs.getD i d) := by
  by_cases h : i < xs.length
  · rw [List.getD_eq_getElem _ _ (by simpa using h), List.getD_eq_getElem _ _ h,
      List.getElem_map]
  · rw [List.getD_eq_default _ _ (by simpa using h),
      List.getD_eq_default _ _ (by omega)]

/-- Claim C9: __getitem__ only reads the stored dataset dictionary — the
state-passing embedding returns the store unchanged for every configuration,
store and index, including the failing ones — while the constructor is the one
place that rewrites the data: it keeps vision, text and labels as given and
replaces exactly the negative-infinity audio cells with 0. -/
theorem c9_getitem_leaves_store_unchanged {α : Type} [LinearOrderedField α]
    (sqrtFn : α → α) (cfg : SentimentConfig) (st : SentimentData α) (ind : ℕ)
    (raw : RawSenti α) :
    (getitemState sqrtFn cfg st ind).2 = st
    ∧ (mkSentimentDataset raw).vision = raw.vision
    ∧ (mkSentimentDataset raw).text = raw.text
    ∧ (mkSentimentDataset raw).labels = raw.labels
    ∧ ∀ i t j, (((mkSentimentDataset raw).audio.getD i []).getD t []).getD j 0
        = cleanVal (((raw.audio.getD i []).getD t []).getD j (.val 0)) := by
  refine ⟨rfl, rfl, rfl, rfl, ?_⟩
  intro i t j
  show (((raw.audio.map (fun m => m.map (fun r => r.map cleanVal))).getD i
      []).getD t []).getD j 0
      = cleanVal (((raw.audio.getD i []).getD t []).getD j (.val 0))
  have h1 : (raw.audio.map (fun m => m.map (fun r => r.map cleanVal))).getD i []
      = (raw.audio.getD i []).map (fun r => r.map cleanVal) := by
    simpa using
      getD_map_def (fun m => m.map (fun r => r.map cleanVal)) raw.audio i []
  have h2 : ((raw.audio.getD i []).map (fun r => r.map cleanVal)).getD t []
      = ((raw.audio.getD i []).getD t []).map cleanVal := by
    simpa using getD_map_def (fun r => r.map cleanVal) (raw.audio.getD i []) t []
  have h3 : (((raw.audio.getD i []).getD t []).map cleanVal).getD j 0
      = cleanVal (((raw.audio.getD i []).getD t []).getD j (.val 0)) := by
    simpa [cleanVal] using
      getD_map_def cleanVal ((raw.audio.getD i []).getD t []) j (.val 0)
  rw [h1, h2, h3]

theorem padFix_length {α : Type} [Zero α] (n : ℕ) (m : Mat α) :
    (padFix n m).length = n := by
  unfold padFix
  apply padTo_length
  rw [List.length_take]
  omega

theorem padFix_getD_beyond {α : Type} [Zero α] (n : ℕ) (m : Mat α) (t : ℕ)
    (h1 : min n m.length ≤ t) (h2 : t < n) :
    ∀ x ∈ (padFix n m).getD t [], x = 0 := by
  intro x hx
  unfold padFix at hx
  rw [padTo_getD_beyond n (m.take n) t (by rw [List.length_take]; omega) h2] at hx
  exact List.eq_of_mem_replicate hx

/-- Counterexample to claim C2 as stated: on the pre-padded path with
max_pad_num = 2, a label of time length 3 is returned untouched (the max_pad
loop runs over range(len(tmp) - 1) and never visits the label), so the label
placeholder is neither truncated to max_pad_num nor padded to it. -/
theorem c2_label_not_padded_counterexample :
    getitem (fun x : ℚ => x) ⟨false, true, none, true, 2, false⟩
        ⟨[[[1]]], [[[1]]], [[[1]]], [[[5], [6], [7]]]⟩ 0
      = .ok (.padded [[(1 : ℚ)], [0]] [[1], [0]] [[1], [0]] [[5], [6], [7]])
    ∧ ([[(5 : ℚ)], [6], [7]] : Mat ℚ).length
        ≠ (⟨false, true, none, true, 2, false⟩ : SentimentConfig).max_pad_num := by
  exact ⟨rfl, by decide⟩

/-- Claim C2 (amended): on the pre-padded path (max_pad set, flatten unset),
whenever retrieval succeeds each of the three modalities is truncated to
max_pad_num time steps and right-padded with zero rows to exactly
max_pad_num, so every modality of every sample (hence of every stacked batch)
has time length exactly max_pad_num; the label, however, is returned exactly
as built in the label step, not truncated and not padded. -/
theorem c2_max_pad_pads_modalities_only {α : Type} [LinearOrderedField α]
    (sqrtFn : α → α) (cfg : SentimentConfig) (st : SentimentData α) (ind : ℕ)
    (hfl : cfg.flatten = false) (hmp : cfg.max_pad = true)
    (v0 a0 t0 v1 a1 t1 lab0 : Mat α)
    (hv : fetch st.vision ind = .ok v0) (ha : fetch st.audio ind = .ok a0)
    (ht : fetch st.text ind = .ok t0)
    (htr : truncStep cfg.aligned v0 a0 t0 = .ok (v1, a1, t1))
    (hlab : fetch st.labels ind = .ok lab0) :
    ∃ v a t : Mat α,
      getitem sqrtFn cfg st ind = .ok (.padded v a t
          (if cfg.task = classificationTask then getClass lab0 else lab0))
      ∧ v = padFix cfg.max_pad_num (if cfg.z_norm then znormMat sqrtFn v1 else v1)
      ∧ a = padFix cfg.max_pad_num (if cfg.z_norm then znormMat sqrtFn a1 else a1)
      ∧ t = padFix cfg.max_pad_num (if cfg.z_norm then znormMat sqrtFn t1 else t1)
      ∧ v.length = cfg.max_pad_num
      ∧ a.length = cfg.max_pad_num
      ∧ t.length = cfg.max_pad_num
      ∧ (∀ (m : Mat α) (tt : ℕ), min cfg.max_pad_num m.length ≤ tt →
            tt < cfg.max_pad_num →
            ∀ x ∈ (padFix cfg.max_pad_num m).getD tt [], x = 0)
      ∧ (∀ (items : List (Sample2 α)) (n : ℕ), (∀ s ∈ items, s.t.length = n) →
            (∀ s ∈ items, s.t.map List.length
              = ((items.map Sample2.t).headD []).map List.length) →
            ∃ batch, (process_2 items).text = some batch
              ∧ ∀ b ∈ batch, b.length = n) := by
  have hmain : getitem sqrtFn cfg st ind = .ok (.padded
      (padFix cfg.max_pad_num (if cfg.z_norm then znormMat sqrtFn v1 else v1))
      (padFix cfg.max_pad_num (if cfg.z_norm then znormMat sqrtFn a1 else a1))
      (padFix cfg.max_pad_num (if cfg.z_norm then znormMat sqrtFn t1 else t1))
      (if cfg.task = classificationTask then getClass lab0 else lab0)) := by
    unfold getitem
    rw [hv]
    simp only [Except.bind]
    rw [ha]
    simp only [Except.bind]
    rw [ht]
    simp only [Except.bind]
    rw [htr]
    simp only [Except.bind]
    rw [hlab]
    simp only [Except.bind]
    by_cases hz : cfg.z_norm = true <;> simp [mkItem, hfl, hmp, hz]
  refine ⟨_, _, _, hmain, rfl, rfl, rfl, padFix_length _ _, padFix_length _ _,
    padFix_length _ _, fun m tt h1 h2 => padFix_getD_beyond _ m tt h1 h2, ?_⟩
  intro items n hn hshape
  have hcond : ∀ m ∈ items.map Sample2.t,
      m.map List.length = ((items.map Sample2.t).headD []).map List.length := by
    intro m hm
    rcases List.mem_map.mp hm with ⟨s, hs, rfl⟩
    exact hshape s hs
  refine ⟨items.map Sample2.t, ?_, ?_⟩
  · show stackT (items.map Sample2.t) = _
    rw [stackT, if_pos hcond]
  · intro b hb
    rcases List.mem_map.mp hb with ⟨s, hs, rfl⟩
    exact hn s hs

/-- Witness for the amended C2 at a concrete one-sample store. -/
theorem c2_max_pad_pads_modalities_only_witness :
    (⟨false, true, none, true, 2, false⟩ : SentimentConfig).flatten = false
    ∧ (⟨false, true, none, true, 2, false⟩ : SentimentConfig).max_pad = true
    ∧ fetch (⟨[[[1]]], [[[1]]], [[[1]]], [[[5], [6], [7]]]⟩ :
        SentimentData ℚ).vision 0 = .ok [[1]]
    ∧ fetch (⟨[[[1]]], [[[1]]], [[[1]]], [[[5], [6], [7]]]⟩ :
        SentimentData ℚ).audio 0 = .ok [[1]]
    ∧ fetch (⟨[[[1]]], [[[1]]], [[[1]]], [[[5], [6], [7]]]⟩ :
        SentimentData ℚ).text 0 = .ok [[1]]
    ∧ truncStep (⟨false, true, none, true, 2, false⟩ :
        SentimentConfig).aligned [[(1 : ℚ)]] [[1]] [[1]]
        = .ok ([[1]], [[1]], [[1]])
    ∧ fetch (⟨[[[1]]], [[[1]]], [[[1]]], [[[5], [6], [7]]]⟩ :
        SentimentData ℚ).labels 0 = .ok [[5], [6], [7]]
    ∧ ∃ v a t : Mat ℚ,
        getitem (fun x : ℚ => x) ⟨false, true, none, true, 2, false⟩
            ⟨[[[1]]], [[[1]]], [[[1]]], [[[5], [6], [7]]]⟩ 0
          = .ok (.padded v a t
              (if (⟨false, true, none, true, 2, false⟩ :
                  SentimentConfig).task = classificationTask then
                getClass [[5], [6], [7]] else [[5], [6], [7]]))
        ∧ v = padFix 2 (if (⟨false, true, none, true, 2, false⟩ :
            SentimentConfig).z_norm then znormMat (fun x : ℚ => x) [[1]] else [[1]])
        ∧ a = padFix 2 (if (⟨false, true, none, true, 2, false⟩ :
            SentimentConfig).z_norm then znormMat (fun x : ℚ => x) [[1]] else [[1]])
        ∧ t = padFix 2 (if (⟨false, true, none, true, 2, false⟩ :
            SentimentConfig).z_norm then znormMat (fun x : ℚ => x) [[1]] else [[1]])
        ∧ v.length = 2 ∧ a.length = 2 ∧ t.length = 2
        ∧ (∀ (m : Mat ℚ) (tt : ℕ), min 2 m.length ≤ tt → tt < 2 →
              ∀ x ∈ (padFix 2 m).getD tt [], x = 0)
        ∧ (∀ (items : List (Sample2 ℚ)) (n : ℕ), (∀ s ∈ items, s.t.length = n) →
              (∀ s ∈ items, s.t.map List.length
                = ((items.map Sample2.t).headD []).map List.length) →
              ∃ batch, (process_2 items).text = some batch
                ∧ ∀ b ∈ batch, b.length = n) :=
  ⟨rfl, rfl, rfl, rfl, rfl, rfl, rfl,
   c2_max_pad_pads_modalities_only (fun x : ℚ => x)
     ⟨false, true, none, true, 2, false⟩
     ⟨[[[1]]], [[[1]]], [[[1]]], [[[5], [6], [7]]]⟩ 0 rfl rfl
     [[1]] [[1]] [[1]] [[1]] [[1]] [[1]] [[5], [6], [7]]
     rfl rfl rfl rfl rfl⟩

/-- Counterexample to claim C8 as stated: for the label [[1, 2], [3, 4]]
(two values per row), the collator collects the first row of the reshape to
(shape[1], shape[0]), which is [1, 2], while the first row of the transpose is
[1, 3]: the two disagree as soon as the label has more than one row. -/
theorem c8_reshape_differs_from_transpose_counterexample :
    1 < widthOf ([[1, 2], [3, 4]] : Mat ℤ)
    ∧ collectLabel ([[1, 2], [3, 4]] : Mat ℤ) = [1, 2]
    ∧ (transposeM ([[1, 2], [3, 4]] : Mat ℤ)).headD [] = [1, 3]
    ∧ collectLabel ([[1, 2], [3, 4]] : Mat ℤ)
        ≠ (transposeM ([[1, 2], [3, 4]] : Mat ℤ)).headD [] :=
  ⟨by decide, by decide, by decide, by decide⟩

/-- Claim C8 (amended): in both collators, a label with more than one value
per row is collected as the first row of its row-major reshape to
(shape[1], shape[0]) — the first shape[0] entries of the row-major
flattening — which agrees with the first row of the transpose (the original
first element) exactly when the label has a single row, as in the (1, 3)
example; a label with at most one value per row is taken as-is; and the
collected labels are returned through the view(batch, 1) step, which yields a
batch-length column when every collected label holds exactly one scalar. -/
theorem c8_label_collection_amended {α : Type} [Zero α] (lab : Mat α) :
    (1 < widthOf lab → collectLabel lab = lab.flatten.take lab.length)
    ∧ (widthOf lab ≤ 1 → collectLabel lab = lab.flatten)
    ∧ (lab.length = 1 → 1 < widthOf lab →
        collectLabel lab = (transposeM lab).headD [])
    ∧ (∀ inputs : List (Sample1 α),
        (process_1 inputs).labels
          = viewB1 inputs.length (inputs.map (fun s => collectLabel s.label)))
    ∧ (∀ inputs : List (Sample2 α),
        (process_2 inputs).labels
          = viewB1 inputs.length (inputs.map (fun s => collectLabel s.label)))
    ∧ (∀ inputs : List (Sample1 α),
        (∀ s ∈ inputs, (collectLabel s.label).length = 1) →
        ∃ col, (process_1 inputs).labels = some col
          ∧ col.length = inputs.length) := by
  refine ⟨?_, ?_, ?_, fun _ => rfl, fun _ => rfl, ?_⟩
  · intro hw
    rw [collectLabel, if_pos hw]
    obtain ⟨k, hk⟩ : ∃ k, widthOf lab = k + 1 := ⟨widthOf lab - 1, by omega⟩
    rw [hk, reshapeRM, List.range_succ_eq_map, List.map_cons]
    simp
  · intro hw
    rw [collectLabel, if_neg (by omega)]
  · intro h1 hw
    rcases List.length_eq_one.mp h1 with ⟨r, rfl⟩
    cases r with
    | nil => simp [widthOf] at hw
    | cons x rest =>
      have hL : collectLabel [x :: rest] = [x] := by
        rw [collectLabel, if_pos hw]
        show (reshapeRM (rest.length + 1) 1 (List.flatten [x :: rest])).headD []
            = [x]
        rw [reshapeRM, List.range_succ_eq_map, List.map_cons]
        simp
      have hR : (transposeM [x :: rest]).headD [] = [x] := by
        rw [transposeM]
        show ((List.range (rest.length + 1)).map
            (fun j => List.map (fun r => r.getD j 0) [x :: rest])).headD [] = [x]
        rw [List.range_succ_eq_map, List.map_cons]
        simp
      rw [hL, hR]
  · intro inputs hall
    have hlen1 : ∀ r ∈ inputs.map (fun s => collectLabel s.label),
        r.length = 1 := by
      intro r hr
      rcases List.mem_map.mp hr with ⟨s, hs, rfl⟩
      exact hall s hs
    have hhead : ∀ r ∈ inputs.map (fun s => collectLabel s.label),
        r.length
          = ((inputs.map (fun s => collectLabel s.label)).headD []).length := by
      intro r hr
      rw [hlen1 r hr]
      cases hx : inputs.map (fun s => collectLabel s.label) with
      | nil => rw [hx] at hr; cases hr
      | cons h t =>
        simp only [List.headD_cons]
        exact (hlen1 h (by rw [hx]; exact List.mem_cons_self _ _)).symm
    have hflat : (inputs.map (fun s => collectLabel s.label)).flatten.length
        = inputs.length := by
      rw [List.length_flatten]
      have hrep : (inputs.map (fun s => collectLabel s.label)).map List.length
          = List.replicate inputs.length 1 := by
        rw [List.eq_replicate_iff]
        refine ⟨by simp, ?_⟩
        intro b hb
        rcases List.mem_map.mp hb with ⟨r, hr, rfl⟩
        exact hlen1 r hr
      rw [hrep, List.sum_replicate]
      simp
    refine ⟨(inputs.map (fun s => collectLabel s.label)).flatten, ?_, hflat⟩
    show viewB1 inputs.length (inputs.map (fun s => collectLabel s.label)) = _
    rw [viewB1, if_pos ⟨hhead, hflat⟩]

/-- Witness for the amended C8 at the (1, 3) label of the spec's example. -/
theorem c8_label_collection_amended_witness :
    1 < widthOf ([[5, 6, 7]] : Mat ℤ)
    ∧ ([[5, 6, 7]] : Mat ℤ).length = 1
    ∧ collectLabel ([[5, 6, 7]] : Mat ℤ) = [5]
    ∧ collectLabel ([[5, 6, 7]] : Mat ℤ)
        = (transposeM ([[5, 6, 7]] : Mat ℤ)).headD [] :=
  ⟨by decide, rfl, by decide,
   (c8_label_collection_amended ([[5, 6, 7]] : Mat ℤ)).2.2.1 rfl (by decide)⟩

/-- Counterexample to claim C3 as stated: the collator sorts the batch by
ascending token length before computing lengths, so for input token lengths
[2, 5, 3] the output length tensor is [3, 4, 6], not [3, 6, 4]. -/
theorem c3_meld_lengths_counterexample :
    (collate_fn c3batch).lengths ≠ [3, 6, 4] := by decide

/-- Claim C3 (amended): because the discrete-family collator first sorts the
batch by ascending token length, for token lengths [2, 5, 3] the output
length tensor is [3, 4, 6] (each sorted length plus one for the prepended
start marker), the validity mask rows hold [3, 4, 6] valid positions
(position t is valid exactly when t < length + 1), and the padded time
dimension of the text batch is max(lengths) + 1 = 6. -/
theorem c3_meld_collate_amended :
    (collate_fn c3batch).lengths = [3, 4, 6]
    ∧ (collate_fn c3batch).mask.map (fun row => row.count true) = [3, 4, 6]
    ∧ (collate_fn c3batch).mask
        = [[true, true, true, false, false, false],
           [true, true, true, true, false, false],
           [true, true, true, true, true, true]]
    ∧ ((collate_fn c3batch).text.headD []).length = 6
    ∧ ∀ row ∈ (collate_fn c3batch).text, row.length = 6 := by
  refine ⟨by decide, by decide, by decide, by decide, by decide⟩

theorem sum_map_sub_const (xs : List ℝ) (c : ℝ) :
    (xs.map (fun x => x - c)).sum = xs.sum - xs.length * c := by
  induction xs with
  | nil => simp
  | cons x xs ih =>
    simp only [List.map_cons, List.sum_cons, List.length_cons, ih]
    push_cast
    ring

theorem sum_sub_mean (xs : List ℝ) (h : (xs.length : ℝ) ≠ 0) :
    (xs.map (fun x => x - colMean xs)).sum = 0 := by
  rw [sum_map_sub_const]
  unfold colMean
  field_simp

theorem znormCol_sum (f : ℝ → ℝ) (xs : List ℝ) (h : (xs.length : ℝ) ≠ 0) :
    (znormCol f xs).sum = 0 := by
  unfold znormCol
  simp only [div_eq_mul_inv]
  rw [List.sum_map_mul_right, sum_sub_mean xs h, zero_mul]

theorem znormCol_mean (f : ℝ → ℝ) (xs : List ℝ) (h : (xs.length : ℝ) ≠ 0) :
    colMean (znormCol f xs) = 0 := by
  unfold colMean
  rw [znormCol_sum f xs h, zero_div]

theorem znormCol_varU (xs : List ℝ) (h2 : 2 ≤ xs.length)
    (hV : colVarU xs ≠ 0) : colVarU (znormCol Real.sqrt xs) = 1 := by
  have hc : (2 : ℝ) ≤ (xs.length : ℝ) := by exact_mod_cast h2
  have hn : (xs.length : ℝ) ≠ 0 := by linarith
  have hVO : 0 ≤ colVarU xs := by
    unfold colVarU
    apply div_nonneg
    · apply List.sum_nonneg
      intro x hx
      rcases List.mem_map.mp hx with ⟨y, _, rfl⟩
      positivity
    · linarith
  have hVpos : 0 < colVarU xs := lt_of_le_of_ne hVO (Ne.symm hV)
  have hsq : Real.sqrt (colVarU xs) ^ 2 = colVarU xs := Real.sq_sqrt hVO
  have hlen : (znormCol Real.sqrt xs).length = xs.length := by simp [znormCol]
  have hmean : colMean (znormCol Real.sqrt xs) = 0 := znormCol_mean _ xs hn
  unfold colVarU
  rw [hmean, hlen]
  have hmap : (znormCol Real.sqrt xs).map (fun x => (x - 0) ^ 2)
      = xs.map (fun x =>
          (x - colMean xs) ^ 2 * ((Real.sqrt (colVarU xs))⁻¹) ^ 2) := by
    unfold znormCol stdWith
    rw [List.map_map]
    apply List.map_congr_left
    intro x _
    show ((x - colMean xs) / Real.sqrt (colVarU xs) - 0) ^ 2 = _
    rw [sub_zero, div_eq_mul_inv, mul_pow]
  rw [hmap, List.sum_map_mul_right, inv_pow, hsq]
  have hrw : (xs.map fun x => (x - colMean xs) ^ 2).sum * (colVarU xs)⁻¹
        / ((xs.length : ℝ) - 1)
      = (xs.map fun x => (x - colMean xs) ^ 2).sum / ((xs.length : ℝ) - 1)
        * (colVarU xs)⁻¹ := by
    ring
  rw [hrw]
  show colVarU xs * (colVarU xs)⁻¹ = 1
  exact mul_inv_cancel₀ hV

theorem znormCol_of_varU_zero (xs : List ℝ) (hV : colVarU xs = 0) :
    znormCol Real.sqrt xs = List.replicate xs.length 0 := by
  rcases xs with _ | ⟨x, _ | ⟨y, rest⟩⟩
  · rfl
  · simp [znormCol, colMean]
  · have h2 : 2 ≤ (x :: y :: rest).length := by
      simp only [List.length_cons]
      omega
    have hc : (2 : ℝ) ≤ ((x :: y :: rest).length : ℝ) := by exact_mod_cast h2
    have hn1 : ((x :: y :: rest).length : ℝ) - 1 ≠ 0 := by linarith
    have hS : ((x :: y :: rest).map
        (fun t => (t - colMean (x :: y :: rest)) ^ 2)).sum = 0 := by
      unfold colVarU at hV
      rcases div_eq_zero_iff.mp hV with h | h
      · exact h
      · exact absurd h hn1
    have hall : ∀ t ∈ (x :: y :: rest), t = colMean (x :: y :: rest) := by
      intro t ht
      have hnn : ∀ z ∈ (x :: y :: rest).map
          (fun t => (t - colMean (x :: y :: rest)) ^ 2), 0 ≤ z := by
        intro z hz
        rcases List.mem_map.mp hz with ⟨w, _, rfl⟩
        positivity
      have hmem : (t - colMean (x :: y :: rest)) ^ 2
          ∈ (x :: y :: rest).map
            (fun t => (t - colMean (x :: y :: rest)) ^ 2) :=
        List.mem_map_of_mem _ ht
      have hle := List.single_le_sum hnn _ hmem
      rw [hS] at hle
      have hge := sq_nonneg (t - colMean (x :: y :: rest))
      have hz0 : (t - colMean (x :: y :: rest)) ^ 2 = 0 := le_antisymm hle hge
      have := sq_eq_zero_iff.mp hz0
      linarith
    rw [List.eq_replicate_iff]
    constructor
    · simp [znormCol]
    · intro b hb
      unfold znormCol at hb
      rcases List.mem_map.mp hb with ⟨t, ht, rfl⟩
      rw [hall t ht, sub_self, zero_div]

theorem column_znormMat (m : Mat ℝ) (w j : ℕ) (hrect : ∀ r ∈ m, r.length = w)
    (hj : j < w) :
    column (znormMat Real.sqrt m) j = znormCol Real.sqrt (column m j) := by
  unfold column znormMat znormCol
  rw [List.map_map, List.map_map]
  apply List.map_congr_left
  intro r hr
  have hjr : j < r.length := by
    have := hrect r hr
    omega
  show ((List.range r.length).map _).getD j 0 = _
  have hget : (List.range r.length).getD j 0 = j := by
    rw [List.getD_eq_getElem _ _ (by simpa using hjr), List.getElem_range]
  rw [getD_map_lt _ (List.range r.length) j (0 : ℝ) 0 (by simpa using hjr), hget]
  rfl

/-- Claim C7: the z-normalization applied per modality in __getitem__
standardizes every feature column independently along the time axis: each
column of the normalized matrix is the centered column divided by its
unbiased standard deviation, so a column with at least two time steps and
non-zero variance ends with mean exactly 0 and standard deviation exactly 1,
while a zero-variance column (where the float code produces NaN and
nan_to_num maps it to 0) becomes entirely 0. -/
theorem c7_znorm_column_statistics (m : Mat ℝ) (w j : ℕ)
    (hrect : ∀ r ∈ m, r.length = w) (hj : j < w) :
    column (znormMat Real.sqrt m) j = znormCol Real.sqrt (column m j)
    ∧ (2 ≤ m.length → colVarU (column m j) ≠ 0 →
        colMean (column (znormMat Real.sqrt m) j) = 0
        ∧ stdWith Real.sqrt (column (znormMat Real.sqrt m) j) = 1)
    ∧ (colVarU (column m j) = 0 →
        column (znormMat Real.sqrt m) j = List.replicate m.length 0) := by
  have hcol := column_znormMat m w j hrect hj
  refine ⟨hcol, ?_, ?_⟩
  · intro h2 hV
    have hlen : (column m j).length = m.length := by simp [column]
    have h2' : 2 ≤ (column m j).length := by omega
    have hn : ((column m j).length : ℝ) ≠ 0 := by
      have : (2 : ℝ) ≤ ((column m j).length : ℝ) := by exact_mod_cast h2'
      linarith
    constructor
    · rw [hcol]
      exact znormCol_mean _ _ hn
    · rw [hcol]
      unfold stdWith
      rw [znormCol_varU (column m j) h2' hV, Real.sqrt_one]
  · intro hV
    rw [hcol, znormCol_of_varU_zero _ hV]
    congr 1
    simp [column]

/-- Witness for C7 at the single-feature two-step column [1, -1]. -/
theorem c7_znorm_column_statistics_witness :
    (∀ r ∈ ([[(1 : ℝ)], [-1]] : Mat ℝ), r.length = 1)
    ∧ 0 < 1
    ∧ 2 ≤ ([[(1 : ℝ)], [-1]] : Mat ℝ).length
    ∧ colVarU (column ([[(1 : ℝ)], [-1]] : Mat ℝ) 0) ≠ 0
    ∧ colMean (column (znormMat Real.sqrt [[(1 : ℝ)], [-1]]) 0) = 0
    ∧ stdWith Real.sqrt (column (znormMat Real.sqrt [[(1 : ℝ)], [-1]]) 0)
        = 1 := by
  have hrect : ∀ r ∈ ([[(1 : ℝ)], [-1]] : Mat ℝ), r.length = 1 := by
    intro r hr
    rcases List.mem_cons.mp hr with rfl | hr2
    · rfl
    · rcases List.mem_cons.mp hr2 with rfl | h3
      · rfl
      · cases h3
  have hV : colVarU (column ([[(1 : ℝ)], [-1]] : Mat ℝ) 0) ≠ 0 := by
    norm_num [colVarU, colMean, column]
  have hmain :=
    (c7_znorm_column_statistics [[(1 : ℝ)], [-1]] 1 0 hrect Nat.one_pos).2.1
      (by norm_num) hV
  exact ⟨hrect, Nat.one_pos, by norm_num, hV, hmain.1, hmain.2⟩

end Loader
